import Mathlib

/-!
Shallow embedding of the USTGCN training/evaluation code
(`src/utils/tools.py` and `src/models/trainer.py`) and proofs about it.
Numeric values are modelled as rationals (exact arithmetic); `rmse` uses
`Real.sqrt` on the rational mean of squares.
-/

set_option autoImplicit false

namespace USTGCN

/-! ### Metric functions, from `src/utils/tools.py` -/

/-- The epsilon constant used by `mape` in tools.py (`epsilon = 1e-7`). -/
def epsilon : ℚ := 1 / 10000000

/-- Mean of a list of rationals, as `np.mean`: sum divided by length
(0 on the empty list, matching the rational convention `x / 0 = 0`). -/
def listMean (l : List ℚ) : ℚ := l.sum / l.length

/-- Elementwise squared differences of two paired sequences. -/
def sqDiffs (y_true y_pred : List ℚ) : List ℚ :=
  (y_true.zip y_pred).map (fun x => (x.1 - x.2) ^ 2)

/-- `rmse` from tools.py: `np.sqrt(np.mean(np.square(y_true - y_pred)))`. -/
noncomputable def rmse (y_true y_pred : List ℚ) : ℝ :=
  Real.sqrt ((listMean (sqDiffs y_true y_pred) : ℚ) : ℝ)

/-- `mae` from tools.py: `np.mean(np.abs(y_true - y_pred))`. -/
def mae (y_true y_pred : List ℚ) : ℚ :=
  listMean ((y_true.zip y_pred).map (fun x => |x.1 - x.2|))

/-- `mape` from tools.py:
`np.mean(np.abs((y_true - y_pred) / (y_true + epsilon))) * 100`.
The absolute value is applied to the whole quotient. -/
def mape (y_true y_pred : List ℚ) : ℚ :=
  listMean ((y_true.zip y_pred).map (fun x => |(x.1 - x.2) / (x.1 + epsilon)|)) * 100

/-- The formula the spec states for `mape`:
`mean(|y_true - y_pred| / (y_true + epsilon)) * 100`, absolute value on the
numerator only. Kept separate so it can be compared with `mape` above. -/
def mape_spec (y_true y_pred : List ℚ) : ℚ :=
  listMean ((y_true.zip y_pred).map (fun x => |x.1 - x.2| / (x.1 + epsilon))) * 100

/-! ### Theorems for the mape claims -/

/-- C7 counterexample: on `y_true = [-1]`, `y_pred = [0]` the code value
(abs of the whole quotient, positive) differs from the spec formula
(abs on the numerator only, negative here). -/
theorem mape_ne_mape_spec_at_neg_one :
    mape [(-1 : ℚ)] [0] ≠ mape_spec [(-1 : ℚ)] [0] := by
  norm_num [mape, mape_spec, listMean, epsilon]
  rw [abs_of_pos (by norm_num : (0 : ℚ) < 10000000 / 9999999)]
  norm_num

/-- C7 (amended): `mape` takes the absolute value of the whole quotient,
equivalently `mean(|y_true - y_pred| / |y_true + epsilon|) * 100`; the
numerator-only form of the spec agrees with it whenever every true value is
nonnegative (so every denominator is positive). -/
theorem mape_abs_whole_quotient (y_true y_pred : List ℚ) :
    mape y_true y_pred =
      listMean ((y_true.zip y_pred).map
        (fun x => |x.1 - x.2| / |x.1 + epsilon|)) * 100 ∧
    ((∀ x ∈ y_true, 0 ≤ x) → mape y_true y_pred = mape_spec y_true y_pred) := by
  constructor
  · unfold mape
    simp only [abs_div]
  · intro h
    unfold mape mape_spec
    congr 2
    apply List.map_congr_left
    intro a ha
    have ha1 : a.1 ∈ y_true := (List.of_mem_zip (a := a.1) (b := a.2) (by simpa using ha)).1
    have hpos : 0 < a.1 + epsilon := by
      have := h a.1 ha1
      have he : (0 : ℚ) < epsilon := by norm_num [epsilon]
      linarith
    rw [abs_div, abs_of_pos hpos]

/-- C7 amended witness: the theorem applied at concrete nonnegative input. -/
theorem mape_abs_whole_quotient_witness :
    mape [(1 : ℚ), 2] [3, 5] = mape_spec [(1 : ℚ), 2] [3, 5] :=
  (mape_abs_whole_quotient [(1 : ℚ), 2] [3, 5]).2 (by decide)

/-- C8: with `y_true` all zero, every denominator is `epsilon ≠ 0` (the
division is total, no division by zero), and the value is the finite
quantity `10^9 * mean(|y_pred|)`, its magnitude governed by epsilon. -/
theorem mape_all_zero_true (y_pred : List ℚ) :
    ((0 : ℚ) + epsilon ≠ 0) ∧
    mape (List.replicate y_pred.length 0) y_pred =
      10 ^ 9 * listMean (y_pred.map (fun x => |x|)) := by
  refine ⟨by norm_num [epsilon], ?_⟩
  unfold mape listMean
  have hzip : (List.replicate y_pred.length (0 : ℚ)).zip y_pred =
      y_pred.map (fun x => ((0 : ℚ), x)) := by
    induction y_pred with
    | nil => rfl
    | cons a l ih => simp [List.replicate_succ, List.zip_cons_cons, ih]
  rw [hzip, List.map_map]
  have he : (0 : ℚ) < epsilon := by norm_num [epsilon]
  have hmap :
      (y_pred.map ((fun x : ℚ × ℚ => |(x.1 - x.2) / (x.1 + epsilon)|) ∘ fun x => ((0 : ℚ), x)))
        = y_pred.map (fun x => |x| * 10 ^ 7) := by
    apply List.map_congr_left
    intro a _
    simp only [Function.comp_apply]
    rw [zero_sub, zero_add, abs_div, abs_neg, abs_of_pos he]
    norm_num [epsilon, div_eq_mul_inv]
  rw [hmap, List.sum_map_mul_right]
  simp only [List.length_map, List.length_replicate]
  ring

/-! ### Python extended slicing `l[i::k]`, used by tools.py and trainer.test -/

/-- Helper for `sliceStep`: picks the head when the counter is `0` and then
waits `k - 1` positions, otherwise decrements the counter. -/
def sliceAux {α : Type} (k : ℕ) : List α → ℕ → List α
  | [], _ => []
  | x :: xs, 0 => x :: sliceAux k xs (k - 1)
  | _ :: xs, j + 1 => sliceAux k xs j

/-- Python slice `l[i::k]`: the elements at positions `i, i+k, i+2k, ...`. -/
def sliceStep {α : Type} (l : List α) (i k : ℕ) : List α := sliceAux k l i

theorem sliceAux_append_of_le {α : Type} (k : ℕ) (l r : List α) :
    ∀ j, l.length ≤ j → sliceAux k (l ++ r) j = sliceAux k r (j - l.length) := by
  induction l with
  | nil => intro j _; simp
  | cons x xs ih =>
    intro j hj
    cases j with
    | zero => simp at hj
    | succ j =>
      simp only [List.cons_append, sliceAux, List.length_cons, List.append_eq]
      rw [ih j (by simp at hj; omega)]
      congr 1
      omega

theorem sliceAux_append_pick {α : Type} (k : ℕ) :
    ∀ (l r : List α) (e : ℕ) (h : e < l.length), l.length ≤ e + k →
      sliceAux k (l ++ r) e = l.get ⟨e, h⟩ :: sliceAux k r (e + k - l.length) := by
  intro l
  induction l with
  | nil => intro r e h; simp at h
  | cons x xs ih =>
    intro r e h hk
    cases e with
    | zero =>
      simp only [List.cons_append, sliceAux, List.append_eq]
      rw [sliceAux_append_of_le k xs r (k - 1) (by simp at hk; omega)]
      congr 2
      simp only [List.length_cons] at hk ⊢
      omega
    | succ e =>
      simp only [List.cons_append, sliceAux, List.append_eq]
      rw [ih r e (by simp at h; omega) (by simp at hk; omega)]
      congr 2
      simp only [List.length_cons] at hk ⊢
      omega

/-- `l[0::1]` is `l` itself. -/
theorem sliceStep_zero_one {α : Type} (l : List α) : sliceStep l 0 1 = l := by
  induction l with
  | nil => rfl
  | cons x xs ih => simpa [sliceStep, sliceAux] using ih

/-- `calculate_foodwise_errors` from tools.py: for each food index
`i < num_foods`, the rmse and (despite the name of the second list) the mae
of the strided subsequences `y_true[i::num_foods]` and `y_pred[i::num_foods]`. -/
noncomputable def calculate_foodwise_errors (y_true y_pred : List ℚ) (num_foods : ℕ) :
    List ℝ × List ℚ :=
  ((List.range num_foods).map
      (fun i => rmse (sliceStep y_true i num_foods) (sliceStep y_pred i num_foods)),
   (List.range num_foods).map
      (fun i => mae (sliceStep y_true i num_foods) (sliceStep y_pred i num_foods)))

/-- C5: for `num_foods ≥ 1` and equal-length inputs, both returned lists have
length `num_foods` and the entry at index `i` is the rmse, respectively the
mae, of the strided subsequences `y[i::num_foods]`; with `num_foods = 1` the
result is `([rmse y_true y_pred], [mae y_true y_pred])`; and on the flat
sequence `[1,2,3,4,5,6]` with stride 3 the per-food subsequences are
`[1,4]`, `[2,5]`, `[3,6]`. -/
theorem calculate_foodwise_errors_spec (y_true y_pred : List ℚ) (num_foods : ℕ)
    (hn : 1 ≤ num_foods) (hlen : y_true.length = y_pred.length) :
    ((calculate_foodwise_errors y_true y_pred num_foods).1.length = num_foods ∧
     (calculate_foodwise_errors y_true y_pred num_foods).2.length = num_foods) ∧
    (∀ i, i < num_foods →
      (calculate_foodwise_errors y_true y_pred num_foods).1[i]? =
        some (rmse (sliceStep y_true i num_foods) (sliceStep y_pred i num_foods)) ∧
      (calculate_foodwise_errors y_true y_pred num_foods).2[i]? =
        some (mae (sliceStep y_true i num_foods) (sliceStep y_pred i num_foods))) ∧
    (calculate_foodwise_errors y_true y_pred 1 =
      ([rmse y_true y_pred], [mae y_true y_pred])) ∧
    (sliceStep [(1 : ℚ), 2, 3, 4, 5, 6] 0 3 = [1, 4] ∧
     sliceStep [(1 : ℚ), 2, 3, 4, 5, 6] 1 3 = [2, 5] ∧
     sliceStep [(1 : ℚ), 2, 3, 4, 5, 6] 2 3 = [3, 6]) := by
  refine ⟨⟨by simp [calculate_foodwise_errors], by simp [calculate_foodwise_errors]⟩,
    ?_, ?_, by decide, by decide, by decide⟩
  · intro i hi
    constructor <;>
      simp [calculate_foodwise_errors, List.getElem?_map, List.getElem?_range, hi]
  · simp [calculate_foodwise_errors, List.range_succ, sliceStep_zero_one]

/-- C5 witness: the theorem applied at `num_foods = 3` on concrete
equal-length inputs. -/
theorem calculate_foodwise_errors_spec_witness :
    ((calculate_foodwise_errors [(1 : ℚ), 2, 3, 4, 5, 6] [0, 0, 0, 0, 0, 0] 3).1.length = 3 ∧
     (calculate_foodwise_errors [(1 : ℚ), 2, 3, 4, 5, 6] [0, 0, 0, 0, 0, 0] 3).2.length = 3) ∧
    (∀ i, i < 3 →
      (calculate_foodwise_errors [(1 : ℚ), 2, 3, 4, 5, 6] [0, 0, 0, 0, 0, 0] 3).1[i]? =
        some (rmse (sliceStep [(1 : ℚ), 2, 3, 4, 5, 6] i 3)
          (sliceStep [(0 : ℚ), 0, 0, 0, 0, 0] i 3)) ∧
      (calculate_foodwise_errors [(1 : ℚ), 2, 3, 4, 5, 6] [0, 0, 0, 0, 0, 0] 3).2[i]? =
        some (mae (sliceStep [(1 : ℚ), 2, 3, 4, 5, 6] i 3)
          (sliceStep [(0 : ℚ), 0, 0, 0, 0, 0] i 3))) ∧
    (calculate_foodwise_errors [(1 : ℚ), 2, 3, 4, 5, 6] [0, 0, 0, 0, 0, 0] 1 =
      ([rmse [(1 : ℚ), 2, 3, 4, 5, 6] [0, 0, 0, 0, 0, 0]],
       [mae [(1 : ℚ), 2, 3, 4, 5, 6] [0, 0, 0, 0, 0, 0]])) ∧
    (sliceStep [(1 : ℚ), 2, 3, 4, 5, 6] 0 3 = [1, 4] ∧
     sliceStep [(1 : ℚ), 2, 3, 4, 5, 6] 1 3 = [2, 5] ∧
     sliceStep [(1 : ℚ), 2, 3, 4, 5, 6] 2 3 = [3, 6]) :=
  calculate_foodwise_errors_spec [(1 : ℚ), 2, 3, 4, 5, 6] [0, 0, 0, 0, 0, 0] 3
    (by decide) (by decide)

/-! ### Reporting round trip: `evaluate()` flat outputs, `test()` de-interleave -/

/-- The flat prediction sequence built by `evaluate()` (trainer.py line 274):
for each processed timestamp `t`, in processing order `ts`, the `N` per-node
prediction rows `row t 0, ..., row t (N - 1)` are appended in node order. -/
def evalPredRows (N : ℕ) (row : ℕ → ℕ → List ℚ) (ts : List ℕ) : List (List ℚ) :=
  (ts.map (fun t => (List.range N).map (fun e => row t e))).flatten

/-- The per-entity column extracted by `test()` (trainer.py lines 334-336):
`pred[i::N]`, flattened. -/
def foodColumn (pred : List (List ℚ)) (i N : ℕ) : List ℚ :=
  (sliceStep pred i N).flatten

/-- De-interleaving by entity count inverts the interleaving of `evaluate()`:
striding the flat row sequence by `N` at offset `e` recovers the rows of
entity `e` in timestamp order. -/
theorem sliceStep_evalPredRows (N : ℕ) (row : ℕ → ℕ → List ℚ) (ts : List ℕ) (e : ℕ)
    (he : e < N) :
    sliceStep (evalPredRows N row ts) e N = ts.map (fun t => row t e) := by
  induction ts with
  | nil => rfl
  | cons t ts ih =>
    have hlen : ((List.range N).map (fun i => row t i)).length = N := by simp
    unfold evalPredRows at ih ⊢
    simp only [List.map_cons, List.flatten_cons]
    unfold sliceStep at ih ⊢
    rw [sliceAux_append_pick N _ _ e (by rw [hlen]; exact he) (by rw [hlen]; omega)]
    congr 1
    · rw [List.get_map, List.get_range]
    · have hidx : e + N - ((List.range N).map (fun i => row t i)).length = e := by
        rw [hlen]; omega
      rw [hidx]
      exact ih

/-- C6: on the synthetic input where the prediction row of entity `e` at
timestamp `t` is the tag `e * 1000 + t`, the de-interleave done by `test()`
reconstructs exactly the original per-entity per-date sequence of tags. -/
theorem test_deinterleave_round_trip (N : ℕ) (ts : List ℕ) (e : ℕ) (he : e < N) :
    foodColumn (evalPredRows N (fun t i => [((i * 1000 + t : ℕ) : ℚ)]) ts) e N =
      ts.map (fun t => ((e * 1000 + t : ℕ) : ℚ)) := by
  unfold foodColumn
  rw [sliceStep_evalPredRows N _ ts e he]
  induction ts with
  | nil => rfl
  | cons t ts ih => simpa using ih

/-- C6 witness: the round trip applied at `N = 2`, dates `[0, 1]`,
entity `e = 1`. -/
theorem test_deinterleave_round_trip_witness :
    foodColumn (evalPredRows 2 (fun t i => [((i * 1000 + t : ℕ) : ℚ)]) [0, 1]) 1 2 =
      [0, 1].map (fun t => ((1 * 1000 + t : ℕ) : ℚ)) :=
  test_deinterleave_round_trip 2 [0, 1] 1 (by decide)

/-! ### Learning-rate schedule, trainer.py lines 207-210 -/

/-- The update applied to `self.learning_rate` at the end of epoch `epoch`:
halve it when `epoch <= 24 and epoch % 8 == 0`, otherwise set it to the
constant `0.0001`. -/
def lr_update (epoch : ℕ) (lr : ℚ) : ℚ :=
  if epoch ≤ 24 ∧ epoch % 8 = 0 then lr / 2 else 1 / 10000

/-- The learning rate in force after the updates at the end of epochs
`1, ..., e`, starting from `lr0`. -/
def lr_after (lr0 : ℚ) : ℕ → ℚ
  | 0 => lr0
  | e + 1 => lr_update (e + 1) (lr_after lr0 e)

theorem lr_after_succ (lr0 : ℚ) (e : ℕ) :
    lr_after lr0 (e + 1) = lr_update (e + 1) (lr_after lr0 e) := rfl

/-- After any epoch that fails the halving condition, the rate is 0.0001. -/
theorem lr_after_of_not_cond (lr0 : ℚ) (e : ℕ) (h1 : 1 ≤ e)
    (h : ¬(e ≤ 24 ∧ e % 8 = 0)) : lr_after lr0 e = 1 / 10000 := by
  obtain ⟨d, rfl⟩ : ∃ d, e = d + 1 := ⟨e - 1, by omega⟩
  rw [lr_after_succ]
  unfold lr_update
  rw [if_neg h]

/-- After an epoch `e ≤ 24` with `e % 8 = 0`, the rate is halved. -/
theorem lr_after_halving (lr0 : ℚ) (e : ℕ) (h1 : 1 ≤ e) (hle : e ≤ 24)
    (hmod : e % 8 = 0) : lr_after lr0 e = lr_after lr0 (e - 1) / 2 := by
  obtain ⟨d, rfl⟩ : ∃ d, e = d + 1 := ⟨e - 1, by omega⟩
  rw [lr_after_succ]
  unfold lr_update
  rw [if_pos ⟨hle, hmod⟩]
  simp

theorem lr_after_eight (lr0 : ℚ) : lr_after lr0 8 = 1 / 20000 := by
  rw [lr_after_halving lr0 8 (by omega) (by omega) (by omega)]
  rw [show (8 : ℕ) - 1 = 7 from rfl, lr_after_of_not_cond lr0 7 (by omega) (by omega)]
  norm_num

theorem lr_after_sixteen (lr0 : ℚ) : lr_after lr0 16 = 1 / 20000 := by
  rw [lr_after_halving lr0 16 (by omega) (by omega) (by omega)]
  rw [show (16 : ℕ) - 1 = 15 from rfl, lr_after_of_not_cond lr0 15 (by omega) (by omega)]
  norm_num

theorem lr_after_twentyfour (lr0 : ℚ) : lr_after lr0 24 = 1 / 20000 := by
  rw [lr_after_halving lr0 24 (by omega) (by omega) (by omega)]
  rw [show (24 : ℕ) - 1 = 23 from rfl, lr_after_of_not_cond lr0 23 (by omega) (by omega)]
  norm_num

/-- C1 counterexample: starting from 0.01, the learning rate after epoch 8
is not 0.005 as the claim states (it is 0.00005: the rate was already forced
to 0.0001 by epochs 1-7, and epoch 8 halves that). -/
theorem lr_after_epoch8_not_claimed :
    lr_after (1 / 100 : ℚ) 8 = 1 / 20000 ∧ lr_after (1 / 100 : ℚ) 8 ≠ 5 / 1000 := by
  refine ⟨lr_after_eight _, ?_⟩
  rw [lr_after_eight]
  norm_num

/-- C1 (amended): after each epoch `e` with `e ≤ 24` and `e % 8 = 0` the
rate is halved, and after every other epoch (not only those `> 24`) it is
set to 0.0001; starting from 0.01 the rate is 0.0001 after epoch 1, 0.00005
after epochs 8, 16 and 24, and exactly 0.0001 from epoch 25 on. -/
theorem lr_schedule (lr0 : ℚ) (e : ℕ) :
    (1 ≤ e → e ≤ 24 → e % 8 = 0 → lr_after lr0 e = lr_after lr0 (e - 1) / 2) ∧
    (1 ≤ e → ¬(e ≤ 24 ∧ e % 8 = 0) → lr_after lr0 e = 1 / 10000) ∧
    (lr_after (1 / 100 : ℚ) 1 = 1 / 10000 ∧
     lr_after (1 / 100 : ℚ) 8 = 1 / 20000 ∧
     lr_after (1 / 100 : ℚ) 16 = 1 / 20000 ∧
     lr_after (1 / 100 : ℚ) 24 = 1 / 20000) ∧
    (24 < e → lr_after lr0 e = 1 / 10000) := by
  refine ⟨fun h1 hle hmod => lr_after_halving lr0 e h1 hle hmod,
    fun h1 h => lr_after_of_not_cond lr0 e h1 h,
    ⟨lr_after_of_not_cond _ 1 (by omega) (by omega),
     lr_after_eight _, lr_after_sixteen _, lr_after_twentyfour _⟩,
    fun h => lr_after_of_not_cond lr0 e (by omega) (by omega)⟩

/-- C1 amended witness: the schedule applied at concrete epochs 8 and 25. -/
theorem lr_schedule_witness :
    lr_after (1 / 100 : ℚ) 8 = lr_after (1 / 100 : ℚ) 7 / 2 ∧
    lr_after (1 / 100 : ℚ) 25 = 1 / 10000 :=
  ⟨(lr_schedule (1 / 100) 8).1 (by omega) (by omega) (by omega),
   (lr_schedule (1 / 100) 25).2.2.2 (by omega)⟩

/-! ### Training-loss accumulator, trainer.py lines 151, 195, 206 -/

theorem foldl_add_eq_add_sum (l : List ℚ) : ∀ a : ℚ,
    l.foldl (fun acc x => acc + x) a = a + l.sum := by
  induction l with
  | nil => intro a; simp
  | cons x xs ih =>
    intro a
    simp only [List.foldl_cons, List.sum_cons, ih]
    ring

/-- One epoch of the `train_loss` accumulator: the per-timestamp losses of
the epoch are added onto the incoming value (line 195), then the total is
divided by the timestamp count (line 206). -/
def epoch_train_loss (prev : ℚ) (tsLosses : List ℚ) : ℚ :=
  (tsLosses.foldl (fun acc l => acc + l) prev) / tsLosses.length

/-- The reported training loss after a sequence of epochs, starting from the
initial accumulator value 0 (line 151); the accumulator is never reset
between epochs. -/
def train_loss_report (epochs : List (List ℚ)) : ℚ :=
  epochs.foldl epoch_train_loss 0

/-- C3: the accumulator starts at 0, and the value reported for an epoch is
the value reported for the previous epoch plus the sum of the per-timestamp
losses of this epoch, divided by the timestamp count
(cumulative-then-divide, no reset). -/
theorem train_loss_cumulative (prevEpochs : List (List ℚ)) (cur : List ℚ) :
    train_loss_report [] = 0 ∧
    train_loss_report (prevEpochs ++ [cur]) =
      (train_loss_report prevEpochs + cur.sum) / cur.length := by
  refine ⟨rfl, ?_⟩
  unfold train_loss_report
  rw [List.foldl_append]
  simp only [List.foldl_cons, List.foldl_nil]
  unfold epoch_train_loss
  rw [foldl_add_eq_add_sum]

/-! ### Checkpoint decision, trainer.py lines 146-149, 227-229 -/

/-- One epoch of the best-loss / checkpoint decision (lines 227-229): save
exactly when the evaluation loss is strictly below the best seen so far;
`⊤` plays the role of the initial `float("Inf")` (line 149). -/
def ckpt_step (best : WithTop ℚ) (loss : ℚ) : WithTop ℚ × Bool :=
  if (loss : WithTop ℚ) < best then ((loss : WithTop ℚ), true) else (best, false)

/-- The sequence of save decisions over a run with the given validation
losses, in epoch order. -/
def ckpt_saves (losses : List ℚ) : List Bool :=
  (losses.foldl
    (fun st loss => ((ckpt_step st.1 loss).1, st.2 ++ [(ckpt_step st.1 loss).2]))
    ((⊤ : WithTop ℚ), ([] : List Bool))).2

/-- C4: a checkpoint is saved in an epoch iff its validation loss is
strictly below the best seen so far, the best-seen value never increases,
and two consecutive equal losses (0.50 then 0.50) save only once. -/
theorem checkpoint_strict_improvement :
    (∀ (best : WithTop ℚ) (loss : ℚ),
      ((ckpt_step best loss).2 = true ↔ (loss : WithTop ℚ) < best) ∧
      (ckpt_step best loss).1 ≤ best) ∧
    ckpt_saves [(1 : ℚ) / 2, 1 / 2] = [true, false] := by
  constructor
  · intro best loss
    constructor
    · unfold ckpt_step
      by_cases h : (loss : WithTop ℚ) < best <;> simp [h]
    · unfold ckpt_step
      by_cases h : (loss : WithTop ℚ) < best
      · simp only [if_pos h]
        exact le_of_lt h
      · simp only [if_neg h]
        exact le_refl best
  · unfold ckpt_saves
    simp only [List.foldl_cons, List.foldl_nil]
    rw [show ckpt_step (⊤ : WithTop ℚ) ((1 : ℚ) / 2) =
        ((((1 : ℚ) / 2 : ℚ) : WithTop ℚ), true) by
      unfold ckpt_step; rw [if_pos (WithTop.coe_lt_top _)]]
    rw [show ckpt_step (((1 : ℚ) / 2 : ℚ) : WithTop ℚ) ((1 : ℚ) / 2) =
        ((((1 : ℚ) / 2 : ℚ) : WithTop ℚ), false) by
      unfold ckpt_step; rw [if_neg (lt_irrefl _)]]
    simp

/-! ### requires_grad bookkeeping in evaluate(), trainer.py lines 258-277 -/

/-- The flag vector after the disabling loop (lines 261-265): every
parameter with `requires_grad = true` is set to `false`, the others were
already `false`; so all flags are `false` afterwards. -/
def disableAll (flags : List Bool) : List Bool := flags.map (fun _ => false)

/-- The restoring loop (lines 276-277): the collected parameters (exactly
those that were `true` before) are set back to `true`; the rest keep their
current value. -/
def restoreCollected (orig cur : List Bool) : List Bool :=
  List.zipWith (fun o c => if o then true else c) orig cur

/-- One timestamp step of `evaluate()` as it acts on the `requires_grad`
flags: disable, run the forward pass, restore. There is no try/finally in
the source, so a raising forward pass propagates the exception with the
flags still in their disabled state. -/
def evalTimestampFlags (flags : List Bool) (forwardRaises : Bool) :
    Except (List Bool) (List Bool) :=
  if forwardRaises then .error (disableAll flags)
  else .ok (restoreCollected flags (disableAll flags))

/-- The flags across the whole of `evaluate()`: one step per processed
timestamp; the t-th entry of `raises` tells whether the forward pass at the
t-th processed timestamp raises. -/
def evalFlagsRun : List Bool → List Bool → Except (List Bool) (List Bool)
  | flags, [] => .ok flags
  | flags, r :: rs =>
    match evalTimestampFlags flags r with
    | .error f => .error f
    | .ok f => evalFlagsRun f rs

theorem restore_after_disable (flags : List Bool) :
    restoreCollected flags (disableAll flags) = flags := by
  induction flags with
  | nil => rfl
  | cons b bs ih =>
    cases b <;> simp [restoreCollected, disableAll] at ih ⊢ <;> exact ih

/-- C9 counterexample: with a single parameter whose gradient tracking is
enabled and a forward pass that raises, `evaluate()` exits on the error path
with the parameter still disabled: the disabled-gradient state leaks. -/
theorem evaluate_flags_leak_on_error :
    evalFlagsRun [true] [true] = .error [false] ∧ ([false] : List Bool) ≠ [true] :=
  ⟨rfl, by decide⟩

/-- C9 (amended): on the normal path every parameter disabled at the start
of a timestamp step is re-enabled before the step completes, so an
exception-free `evaluate()` returns with all `requires_grad` flags exactly
as on entry; but a raising forward pass propagates with the flags still
disabled. -/
theorem evaluate_flags_spec :
    (∀ flags : List Bool, evalTimestampFlags flags false = .ok flags) ∧
    (∀ (flags raises : List Bool), (∀ r ∈ raises, r = false) →
      evalFlagsRun flags raises = .ok flags) ∧
    (∀ flags : List Bool, evalTimestampFlags flags true = .error (disableAll flags)) := by
  have hstep : ∀ flags : List Bool, evalTimestampFlags flags false = .ok flags := by
    intro flags
    unfold evalTimestampFlags
    rw [if_neg (by simp), restore_after_disable]
  refine ⟨hstep, ?_, fun flags => rfl⟩
  intro flags raises
  induction raises generalizing flags with
  | nil => intro _; rfl
  | cons r rs ih =>
    intro h
    have hr : r = false := h r (by simp)
    subst hr
    show (match evalTimestampFlags flags false with
          | Except.error f => Except.error f
          | Except.ok f => evalFlagsRun f rs) = Except.ok flags
    rw [hstep flags]
    exact ih flags (fun x hx => h x (by simp [hx]))

/-- C9 amended witness: a two-timestamp exception-free run restores the
mixed flag vector exactly. -/
theorem evaluate_flags_spec_witness :
    evalFlagsRun [true, false] [false, false] = .ok [true, false] :=
  evaluate_flags_spec.2.1 [true, false] [false, false] (by decide)

/-! ### train() loop bounds, trainer.py lines 142-239 -/

/-- Observable effects of one `train()` call: counts of optimizer steps,
`evaluate()` calls and checkpoint saves, plus the writer lifecycle
(created at line 144, closed at line 239). -/
structure TrainResult where
  optimSteps : ℕ
  evals : ℕ
  saves : ℕ
  writerCreated : Bool
  writerClosed : Bool
deriving DecidableEq

/-- The epochs iterated by `train()`: `range(1, epochs)` (line 152). -/
def trainEpochs (epochs : ℕ) : List ℕ := List.range' 1 (epochs - 1)

/-- Counting model of `train()`: per epoch in `range(1, epochs)` it performs
one optimizer step per training timestamp (`T` of them), one call to
`evaluate()`, and saves exactly when the strict-improvement decision fires. -/
def train_run (epochs T : ℕ) (evalLoss : ℕ → ℚ) : TrainResult :=
  let final := (trainEpochs epochs).foldl
    (fun (st : (ℕ × ℕ × ℕ) × WithTop ℚ) e =>
      let dec := ckpt_step st.2 (evalLoss e)
      ((st.1.1 + T, st.1.2.1 + 1, st.1.2.2 + (if dec.2 then 1 else 0)), dec.1))
    ((0, 0, 0), (⊤ : WithTop ℚ))
  { optimSteps := final.1.1, evals := final.1.2.1, saves := final.1.2.2,
    writerCreated := true, writerClosed := true }

/-- C10: with `epochs ≤ 1` the epoch loop `range(1, epochs)` is empty, so
`train()` performs zero optimizer steps, zero evaluations and zero saves;
it only creates the writer and closes it. -/
theorem train_noop_when_epochs_le_one (epochs T : ℕ) (evalLoss : ℕ → ℚ)
    (h : epochs ≤ 1) :
    trainEpochs epochs = [] ∧
    train_run epochs T evalLoss =
      { optimSteps := 0, evals := 0, saves := 0,
        writerCreated := true, writerClosed := true } := by
  have hemp : trainEpochs epochs = [] := by
    unfold trainEpochs
    rw [show epochs - 1 = 0 by omega]
    rfl
  refine ⟨hemp, ?_⟩
  unfold train_run
  rw [hemp]
  rfl

/-- C10 witness: `train()` with `epochs = 1` is a no-op apart from the
writer lifecycle. -/
theorem train_noop_when_epochs_le_one_witness :
    trainEpochs 1 = [] ∧
    train_run 1 5 (fun _ => 0) =
      { optimSteps := 0, evals := 0, saves := 0,
        writerCreated := true, writerClosed := true } :=
  train_noop_when_epochs_le_one 1 5 (fun _ => 0) (by decide)

/-! ### Checkpoint loading, trainer.py lines 129-140 and 353-377 -/

/-- The writer / log-directory / model-provenance state read and written by
`load_model`: `writer` is the directory of the active writer (`none` when no
writer is active), `modelsFrom` records the checkpoint directory both model
collections were last restored from. -/
structure LoadState where
  writer : Option String
  logDir : Option String
  modelsFrom : Option String
deriving DecidableEq

/-- `initiate_writer` (lines 129-140): creates a fresh run directory and a
writer on it; the fresh directory name, which the source derives from the
filesystem, is abstracted as the parameter `freshDir`. -/
def initiate_writer (st : LoadState) (freshDir : String) : LoadState :=
  { st with writer := some freshDir, logDir := some freshDir }

/-- `load_model` (lines 353-377): with a path, restore both model
collections from it and point the log directory and a new writer at it;
with no path and no active writer, fall back to `initiate_writer`; with no
path but an active writer, raise `ValueError("No model path provided")`. -/
def load_model (st : LoadState) (freshDir : String) (model_path : Option String) :
    Except String LoadState :=
  match model_path with
  | some p => .ok { writer := some p, logDir := some p, modelsFrom := some p }
  | none =>
    if st.writer = none then .ok (initiate_writer st freshDir)
    else .error "No model path provided"

/-- C2 counterexample: called with no model path and no active writer,
`load_model` does not raise; it initiates a fresh writer and returns
normally. -/
theorem load_model_no_path_no_writer_no_error :
    load_model ⟨none, none, none⟩ "run_0" none =
      .ok ⟨some "run_0", some "run_0", none⟩ ∧
    load_model ⟨none, none, none⟩ "run_0" none ≠ .error "No model path provided" := by
  refine ⟨rfl, ?_⟩
  intro h
  simp [load_model, initiate_writer] at h

/-- C2 (amended): `load_model` raises a ValueError with no path only when a
writer is already active; with no path and no active writer it initiates a
fresh writer; with an explicit path it restores both parameter collections
and resumes logging into that directory. -/
theorem load_model_spec (st : LoadState) (freshDir : String) :
    (∀ p : String, load_model st freshDir (some p) =
      .ok { writer := some p, logDir := some p, modelsFrom := some p }) ∧
    (st.writer = none →
      load_model st freshDir none = .ok (initiate_writer st freshDir)) ∧
    (st.writer ≠ none →
      load_model st freshDir none = .error "No model path provided") := by
  refine ⟨fun p => rfl, fun h => ?_, fun h => ?_⟩
  · simp [load_model, h]
  · simp [load_model, h]

/-- C2 amended witness: the error case at an active writer and the fallback
case at no writer, both concrete. -/
theorem load_model_spec_witness :
    load_model ⟨some "logs/run_3", some "logs/run_3", none⟩ "d" none =
      .error "No model path provided" ∧
    load_model ⟨none, none, none⟩ "d" none =
      .ok (initiate_writer ⟨none, none, none⟩ "d") :=
  ⟨(load_model_spec ⟨some "logs/run_3", some "logs/run_3", none⟩ "d").2.2 (by simp),
   (load_model_spec ⟨none, none, none⟩ "d").2.1 rfl⟩

end USTGCN
